import Mathlib

/-!
Shallow embedding of the go-critic lint-testing harness
(`framework/linttest/linttest.go`) and verification of the frozen claims
about it.

The Go package runs every registered checker over a shared sanity fixture
(excluding checkers that panic), then runs each surviving checker over its
own annotated fixture files and reconciles the emitted diagnostics against
the `/// `-comment expectations, reporting unexpected warnings, multiple
matches and unmatched expectations.

Modelling conventions:
* `map[int][]string` (the `warnings` index) is an association list with
  line-number keys; theorems that need map semantics take a `Nodup`
  hypothesis on the keys.
* Pointer identity of an expectation (`*string`, `&sl[i]` in Go) is the
  pair (line, index into the per-line slice).
* `t.Errorf` reports are accumulated in a list of `Failure` values;
  `t.Fatalf` is an `Except.error` that aborts the remaining files of the
  same checker test.
* Go string prefix tests (`strings.HasPrefix(s, "/// ")`) are modelled on
  the character list underlying the Lean string; for the ASCII directive
  marker a byte prefix and a character prefix agree.
-/

namespace Linttest

/-- A diagnostic produced by a checker over one file.  In the Go code the
line comes from `ctx.FileSet.Position(warn.Node.Pos()).Line` and the text
is `warn.Text` (linttest.go, `checkFile`). -/
structure Warn where
  line : Nat
  text : String
deriving DecidableEq

/-- The expectation index of one fixture file: Go type
`warnings = map[int][]string`, mapping a line number to the ordered
expected diagnostic texts of that line.  Modelled as an association list;
map semantics correspond to a `Nodup` key list. -/
abbrev Warnings := List (Nat × List String)

/-- Go map lookup `ws[line]`: the slice stored for `line`, empty when the
key is absent. -/
def Warnings.lookupLine (ws : Warnings) (line : Nat) : List String :=
  (((ws.find? (fun p => p.1 == line)).map Prod.snd).getD [])

/-- Identity of one expectation record: its line and its index in the
per-line slice.  This plays the role of the `*string` pointer `&sl[i]`
used by the Go code to track consumption per record, not per value. -/
abbrev ExpId := Nat × Nat

/-- Scan of the per-line slice from index `i` for the first entry whose
text equals `text` and whose identity is not yet consumed. -/
def findFrom (matched : List ExpId) (line : Nat) (text : String) :
    Nat → List String → Option Nat
  | _, [] => none
  | i, w :: rest =>
    if w = text ∧ (line, i) ∉ matched then some i
    else findFrom matched line text (i + 1) rest

/-- Modelled from the spec: the `find` method of the `warnings` index
(`newWarnings`/`find` are declared in this package but their file is not
among the sources; only the call sites in `checkFile` are).  Spec 4.4
step 2 specifies the scan: "Scan for the first not-yet-consumed
Expectation whose text equals the diagnostic's text exactly", so the
model receives the consumed set and returns the identity of the first
unconsumed equal-text expectation on the diagnostic's line. -/
def Warnings.findExp (ws : Warnings) (matched : List ExpId) (line : Nat)
    (text : String) : Option ExpId :=
  (findFrom matched line text 0 (ws.lookupLine line)).map (fun i => (line, i))

/-- One reported test failure (`t.Errorf` in `checkFile` and
`checkUnmatched`): the fixture file name, the line and the text involved. -/
inductive Failure where
  | multipleMatches (file : String) (line : Nat) (text : String)
  | unexpectedWarn (file : String) (line : Nat) (text : String)
  | unmatched (file : String) (line : Nat) (text : String)
deriving DecidableEq

/-- Line a failure is attributed to. -/
def Failure.line : Failure → Nat
  | .multipleMatches _ l _ => l
  | .unexpectedWarn _ l _ => l
  | .unmatched _ l _ => l

/-- State of the matching loop of `checkFile`: the consumed expectation
identities (`matched := make(map[*string]struct\x7b\x7d)`) and the failures
reported so far. -/
structure CheckState where
  matched : List ExpId
  failures : List Failure
deriving DecidableEq

/-- Body of the matching loop of `checkFile` (linttest.go lines 110-123)
for one diagnostic: find an expectation for the line and text; if it was
already consumed report a multiple-match failure, otherwise consume it;
with no expectation found report an unexpected warning. -/
def processWarn (file : String) (ws : Warnings) (st : CheckState)
    (warn : Warn) : CheckState :=
  match ws.findExp st.matched warn.line warn.text with
  | some w =>
    if w ∈ st.matched then
      { matched := st.matched,
        failures := st.failures ++ [Failure.multipleMatches file warn.line warn.text] }
    else
      { matched := st.matched ++ [w], failures := st.failures }
  | none =>
    { matched := st.matched,
      failures := st.failures ++ [Failure.unexpectedWarn file warn.line warn.text] }

/-- The whole matching loop `for _, warn := range c.Check(f)`. -/
def processWarns (file : String) (ws : Warnings) :
    CheckState → List Warn → CheckState
  | st, [] => st
  | st, w :: rest => processWarns file ws (processWarn file ws st w) rest

/-- Inner loop of `checkUnmatched` over one per-line slice, carrying the
running index `i` (`for i, w := range sl`): every expectation identity not
in `matched` yields one unmatched failure. -/
def unmatchedAt (file : String) (matched : List ExpId) (line : Nat) :
    Nat → List String → List Failure
  | _, [] => []
  | i, w :: rest =>
    (if (line, i) ∈ matched then [] else [Failure.unmatched file line w]) ++
      unmatchedAt file matched line (i + 1) rest

/-- `checkUnmatched` (linttest.go lines 146-154): report every expectation
record whose identity was never consumed. -/
def checkUnmatched (ws : Warnings) (matched : List ExpId) (file : String) :
    List Failure :=
  ws.flatMap (fun p => unmatchedAt file matched p.1 0 p.2)

/-- Full matching outcome for one file: run the loop from the empty state,
then report the unmatched expectations. -/
def matchOutcome (ws : Warnings) (warns : List Warn) (file : String) :
    List Failure :=
  (processWarns file ws ⟨[], []⟩ warns).failures ++
    checkUnmatched ws (processWarns file ws ⟨[], []⟩ warns).matched file

/-- Go `strings.HasPrefix(s, "/// ")`, the directive marker test used by
`stripDirectives` and by the expectation grammar. -/
def hasDirectiveMarker (s : String) : Bool :=
  "/// ".data.isPrefixOf s.data

/-- A comment node of the syntax tree (`ast.Comment`): its position
(`Slash`) and its text. -/
structure Comment where
  slash : Nat
  text : String
deriving DecidableEq

/-- A comment group of the syntax tree (`ast.CommentGroup`). -/
structure CommentGroup where
  list : List Comment
deriving DecidableEq

/-- The parts of `ast.File` the harness touches: the position of the
`package` keyword, the package name, the declarations (kept abstract as an
opaque payload list, since the stripping pass never inspects them) and the
comment groups. -/
structure GoFile where
  packagePos : Nat
  name : String
  decls : List String
  comments : List CommentGroup
deriving DecidableEq

/-- Rewrite of one comment by `stripDirectives`: a comment whose text
carries the directive marker becomes the empty single-line comment `//`;
its position is untouched. -/
def stripComment (c : Comment) : Comment :=
  if hasDirectiveMarker c.text then { c with text := "//" } else c

/-- `stripDirectives` (linttest.go lines 131-139): rewrite every directive
comment of the file, leaving everything else in place. -/
def stripDirectives (f : GoFile) : GoFile :=
  { f with comments :=
      f.comments.map (fun cg => { cg with list := cg.list.map stripComment }) }

/-- Text of an annotation comment: the part after the three-character
directive marker and its separator, when present. -/
def directiveText (s : String) : Option String :=
  if hasDirectiveMarker s then some (s.drop 4) else none

/-- Modelled from the spec: the expectation parser `newWarnings` (declared
in this package but its file is not among the sources).  Spec 4.2: any
comment whose content begins with the reserved directive marker is an
annotation; its remaining text is the expected diagnostic text for the
line the comment is attached to; a line may carry several annotations.
The raw fixture content is given as (line, comment text) pairs, and the
index maps each annotated line to its ordered expected texts. -/
def newWarnings (raw : List (Nat × String)) : Warnings :=
  ((raw.filterMap
      (fun p => if (directiveText p.2).isSome then some p.1 else none)).dedup).map
    (fun L => (L, raw.filterMap (fun p => if p.1 = L then directiveText p.2 else none)))

/-- Path of a fixture file as `checkFile` reports it:
`filepath.Join("testdata", c.Info.Name, filename)`. -/
def testFilename (checkerName filename : String) : String :=
  "testdata/" ++ checkerName ++ "/" ++ filename

/-- One fixture file as `checkFile` sees it: its base name, its raw
on-disk content as (line, comment text) pairs (`none` models a file that
`os.Open` cannot read) and its parsed syntax tree. -/
structure Fixture where
  filename : String
  raw : Option (List (Nat × String))
  tree : GoFile
deriving DecidableEq

/-- `checkFile` (linttest.go lines 91-126): open the raw fixture file
(failure is fatal for the checker's test), parse the expectations from the
raw content, strip the directives from the tree, run the checker on the
stripped tree and reconcile its diagnostics against the expectations. -/
def checkFile (checkerName : String) (check : GoFile → List Warn)
    (fx : Fixture) : Except String (List Failure) :=
  match fx.raw with
  | none => Except.error ("read file " ++ testFilename checkerName fx.filename)
  | some raw =>
    Except.ok (matchOutcome (newWarnings raw)
      (check (stripDirectives fx.tree))
      (testFilename checkerName fx.filename))

/-- Failures of one file when its check does not abort, none otherwise. -/
def okFailures (checkerName : String) (check : GoFile → List Warn)
    (fx : Fixture) : List Failure :=
  match checkFile checkerName check fx with
  | Except.ok fs => fs
  | Except.error _ => []

/-- The per-checker fixture phase over its files (the two nested loops of
`TestCheckers` feeding `checkFile`): failures accumulate across files; a
fatal error (`t.Fatalf`) stops the remaining files and is returned with
the reports made so far. -/
def runFixtures (checkerName : String) (check : GoFile → List Warn) :
    List Fixture → List Failure × Option String
  | [] => ([], none)
  | fx :: rest =>
    match checkFile checkerName check fx with
    | Except.error e => ([], some e)
    | Except.ok fs =>
      ((fs ++ (runFixtures checkerName check rest).1),
        (runFixtures checkerName check rest).2)

/-- Identity of a registered checker (`linter.CheckerInfo`). -/
structure CheckerInfo where
  name : String
deriving DecidableEq

/-- Number of compilation units of the sanity fixture a checker completes
before its first panicking unit (all of them when no unit panics).  The
argument lists, unit by unit, whether processing that unit panics.  Per
Go semantics each loop iteration of `saneCheckersList` registers one
deferred function; a panic in unit `j` is recovered by unit `j`'s own
deferred function (which reports the sanity failure), and the deferred
functions of the `j` completed units then each observe `recover() == nil`
and append the checker to the sane list. -/
def completedUnits : List Bool → Nat
  | [] => 0
  | b :: rest => if b then 0 else completedUnits rest + 1

/-- One checker's sanity subtest (linttest.go lines 26-50): the list of
appends it makes to `saneList` and whether a sanity failure was reported
(a panic occurred in some unit). -/
def sanitySubtest (info : CheckerInfo) (panics : List Bool) :
    List CheckerInfo × Bool :=
  (List.replicate (completedUnits panics) info, panics.contains true)

/-- `saneCheckersList` (linttest.go lines 21-54): run every registered
checker's sanity subtest and collect the appended infos.  `panics` gives,
for each checker, the per-unit panic behaviour over the shared sanity
fixture. -/
def saneCheckersList (checkers : List CheckerInfo)
    (panics : CheckerInfo → List Bool) : List CheckerInfo :=
  match checkers with
  | [] => []
  | info :: rest =>
    (sanitySubtest info (panics info)).1 ++ saneCheckersList rest panics

/-- `TestCheckers` (linttest.go lines 68-89): the fixture-testing phase
runs one subtest per entry of the sane list; `fixtureTest` is the outcome
of one checker's fixture subtest. -/
def TestCheckers (checkers : List CheckerInfo)
    (panics : CheckerInfo → List Bool)
    (fixtureTest : CheckerInfo → List Failure × Option String) :
    List (CheckerInfo × (List Failure × Option String)) :=
  (saneCheckersList checkers panics).map (fun info => (info, fixtureTest info))

/-- A type-checked package variant (`*packages.Package`), identified
abstractly. -/
structure Pkg where
  id : Nat
deriving DecidableEq

/-- A package unit as visited by `pkgload.VisitUnits`: the base variant,
the optional test-augmented variant and the optional external test
variant. -/
structure PkgUnit where
  base : Pkg
  test : Option Pkg
  externalTest : Option Pkg
deriving DecidableEq

/-- Selection made by the `VisitUnits` callback of `loadPackages`
(linttest.go lines 185-196): always take the external test variant when
present; take the test variant when present, otherwise the base. -/
def selectUnit (u : PkgUnit) : List Pkg :=
  (match u.externalTest with
   | some p => [p]
   | none => []) ++
  (match u.test with
   | some p => [p]
   | none => [u.base])

/-- `loadPackages` (linttest.go lines 178-198) after a successful
`packages.Load`: the concatenation of the per-unit selections. -/
def loadPackages (units : List PkgUnit) : List Pkg :=
  units.flatMap selectUnit

/-- The consumed set reached after the first `j` expectations of line `L`
have been matched, in consumption order: the identities
(L, 0), (L, 1), ..., (L, j-1). -/
def consumedUpTo (L j : Nat) : List ExpId :=
  (List.range j).map (fun i => (L, i))

/-! Basic facts about the directive marker and the stripping pass. -/

theorem hasDirectiveMarker_empty_comment : hasDirectiveMarker "//" = false := by
  decide

theorem stripComment_idem (c : Comment) :
    stripComment (stripComment c) = stripComment c := by
  by_cases h : hasDirectiveMarker c.text = true
  · simp [stripComment, h, hasDirectiveMarker_empty_comment]
  · simp [stripComment, h]

theorem stripDirectives_stripDirectives (f : GoFile) :
    stripDirectives (stripDirectives f) = stripDirectives f := by
  unfold stripDirectives
  congr 1
  rw [List.map_map]
  apply List.map_congr_left
  intro cg _
  show CommentGroup.mk ((cg.list.map stripComment).map stripComment) = _
  rw [List.map_map]
  congr 1
  apply List.map_congr_left
  intro c _
  exact stripComment_idem c

/-- C7: directive stripping is idempotent: applying the stripping pass
twice yields the same tree as applying it once (after the first pass every
rewritten comment's text is the empty comment `//`, which no longer
carries the directive marker, so the second pass changes nothing). -/
theorem c7_strip_idempotent (f : GoFile) :
    stripDirectives (stripDirectives f) = stripDirectives f :=
  stripDirectives_stripDirectives f

/-- C8: the stripping pass changes only the text of comments whose text
begins with the directive marker (rewriting them to the empty single-line
comment `//`); every other comment, every comment's recorded position and
every other part of the tree are unchanged, so no node's reported
line/column changes. -/
theorem c8_strip_frame (f : GoFile) :
    (stripDirectives f).packagePos = f.packagePos ∧
    (stripDirectives f).name = f.name ∧
    (stripDirectives f).decls = f.decls ∧
    List.Forall₂ (fun cg2 cg1 : CommentGroup =>
      List.Forall₂ (fun c2 c1 : Comment =>
        c2.slash = c1.slash ∧
        (hasDirectiveMarker c1.text = true → c2.text = "//") ∧
        (hasDirectiveMarker c1.text = false → c2 = c1))
        cg2.list cg1.list)
      (stripDirectives f).comments f.comments := by
  refine ⟨rfl, rfl, rfl, ?_⟩
  unfold stripDirectives
  rw [List.forall₂_map_left_iff, List.forall₂_same]
  intro cg _
  show List.Forall₂ _ (cg.list.map stripComment) cg.list
  rw [List.forall₂_map_left_iff, List.forall₂_same]
  intro c _
  by_cases h : hasDirectiveMarker c.text = true
  · refine ⟨?_, ?_, ?_⟩
    · simp [stripComment, h]
    · intro _; simp [stripComment, h]
    · intro habs; rw [h] at habs; cases habs
  · refine ⟨?_, ?_, ?_⟩
    · simp [stripComment, h]
    · intro habs; exact absurd habs h
    · intro _; simp [stripComment, h]

/-! The sanity phase. -/

theorem completedUnits_replicate_false (P : Nat) :
    completedUnits (List.replicate P false) = P := by
  induction P with
  | zero => rfl
  | succ n ih => simp [List.replicate_succ, completedUnits, ih]

theorem count_saneCheckersList (cs : List CheckerInfo)
    (panics : CheckerInfo → List Bool) (info : CheckerInfo) :
    (saneCheckersList cs panics).count info
      = cs.count info * completedUnits (panics info) := by
  induction cs with
  | nil => simp [saneCheckersList]
  | cons c rest ih =>
    simp only [saneCheckersList, sanitySubtest, List.count_append, ih]
    by_cases h : c = info
    · subst h
      simp [List.count_replicate_self, List.count_cons_self, Nat.succ_mul,
        Nat.add_comm]
    · have h2 : ¬(info = c) := fun hh => h hh.symm
      simp [List.count_replicate, List.count_cons, h, h2]

/-- C2 as stated is false on the code: the deferred recover only
intercepts the panic in the defer of the unit that panicked; the deferred
functions of the units completed before it observe no panic and still
append the checker.  Concretely, a checker that completes the first unit
of the sanity fixture and panics in the second is appended once, although
a panic occurred during its sanity run. -/
theorem c2_counterexample :
    ([false, true].contains true = true) ∧
    saneCheckersList [⟨"boom"⟩] (fun _ => [false, true]) = [⟨"boom"⟩] := by
  exact ⟨rfl, rfl⟩

/-- C2 (amended): a checker that panics while processing the first
compilation unit of the sanity fixture (in particular, whenever the
fixture loads as a single unit) never appears in the sane list and its
fixture subtest is never run; in general a panicking checker is appended
once per unit completed before the panic. -/
theorem c2_first_unit_panic_excluded (checkers : List CheckerInfo)
    (panics : CheckerInfo → List Bool) (info : CheckerInfo)
    (ft : CheckerInfo → List Failure × Option String)
    (h : (panics info).head? = some true) :
    info ∉ saneCheckersList checkers panics ∧
    (saneCheckersList checkers panics).count info = 0 ∧
    (TestCheckers checkers panics ft).countP (fun q => decide (q.1 = info)) = 0 := by
  have hz : completedUnits (panics info) = 0 := by
    cases hp : panics info with
    | nil => rw [hp] at h; cases h
    | cons b rest =>
      rw [hp] at h
      simp only [List.head?_cons, Option.some.injEq] at h
      simp [completedUnits, h]
  have hmem : ∀ cs : List CheckerInfo, info ∉ saneCheckersList cs panics := by
    intro cs
    induction cs with
    | nil => simp [saneCheckersList]
    | cons c rest ih =>
      simp only [saneCheckersList, sanitySubtest, List.mem_append]
      rintro (hm | hm)
      · have h1 := List.eq_of_mem_replicate hm
        rw [← h1, hz] at hm
        simp at hm
      · exact ih hm
  refine ⟨hmem checkers, List.count_eq_zero.mpr (hmem checkers), ?_⟩
  rw [TestCheckers, List.countP_map]
  refine List.countP_eq_zero.mpr ?_
  intro x hx
  simp only [Function.comp_apply, decide_eq_true_eq]
  intro hxi
  exact hmem checkers (hxi ▸ hx)

/-- Witness for the amended C2 at a concrete input: one checker that
panics in the first (single) sanity unit. -/
theorem c2_witness :
    (CheckerInfo.mk "boom") ∉ saneCheckersList [⟨"boom"⟩] (fun _ => [true]) ∧
    (saneCheckersList [⟨"boom"⟩] (fun _ => [true])).count ⟨"boom"⟩ = 0 ∧
    (TestCheckers [⟨"boom"⟩] (fun _ => [true]) (fun _ => ([], none))).countP
      (fun q => decide (q.1 = ⟨"boom"⟩)) = 0 :=
  c2_first_unit_panic_excluded [⟨"boom"⟩] (fun _ => [true]) ⟨"boom"⟩
    (fun _ => ([], none)) rfl

/-- C3: when the sanity fixture loads as P compilation units and a checker
completes all of them without panicking, its info record is appended once
per unit (by the P deferred functions), so it occurs P times in the sane
list and its fixture subtest is run P times; for P = 1 it is appended
exactly once. -/
theorem c3_appended_once_per_unit (checkers : List CheckerInfo)
    (panics : CheckerInfo → List Bool) (info : CheckerInfo) (P : Nat)
    (ft : CheckerInfo → List Failure × Option String)
    (hp : panics info = List.replicate P false)
    (hc : checkers.count info = 1) :
    (saneCheckersList checkers panics).count info = P ∧
    (TestCheckers checkers panics ft).countP (fun q => decide (q.1 = info)) = P := by
  have h1 : (saneCheckersList checkers panics).count info = P := by
    rw [count_saneCheckersList, hc, hp, completedUnits_replicate_false, Nat.one_mul]
  refine ⟨h1, ?_⟩
  rw [TestCheckers, List.countP_map]
  have h2 : ∀ l : List CheckerInfo,
      l.countP ((fun q : CheckerInfo × (List Failure × Option String) =>
        decide (q.1 = info)) ∘ (fun i => (i, ft i))) = l.count info := by
    intro l
    rfl
  rw [h2, h1]

/-- Witness for C3: a single checker over a two-unit panic-free sanity
fixture is appended twice and fixture-tested twice. -/
theorem c3_witness :
    (saneCheckersList [⟨"ok"⟩] (fun _ => [false, false])).count ⟨"ok"⟩ = 2 ∧
    (TestCheckers [⟨"ok"⟩] (fun _ => [false, false]) (fun _ => ([], none))).countP
      (fun q => decide (q.1 = ⟨"ok"⟩)) = 2 :=
  c3_appended_once_per_unit [⟨"ok"⟩] (fun _ => [false, false]) ⟨"ok"⟩ 2
    (fun _ => ([], none)) rfl rfl

/-! Package unit selection. -/

/-- C6: for every package unit, the selection contains the external test
variant whenever it is present, and exactly one of the test-augmented
variant (preferred) or the base variant; the base is never included
alongside the test variant.  The per-unit selections all reach the result
of `loadPackages`. -/
theorem c6_unit_selection (u : PkgUnit) (units : List PkgUnit)
    (hu : u ∈ units)
    (hbt : ∀ p, u.test = some p → p ≠ u.base)
    (hbe : ∀ p, u.externalTest = some p → p ≠ u.base) :
    (∀ p, u.externalTest = some p → p ∈ selectUnit u) ∧
    (∀ p, u.test = some p → p ∈ selectUnit u ∧ u.base ∉ selectUnit u) ∧
    (u.test = none → u.base ∈ selectUnit u) ∧
    (∀ p, p ∈ selectUnit u → p ∈ loadPackages units) := by
  refine ⟨?_, ?_, ?_, ?_⟩
  · intro p hp
    simp [selectUnit, hp]
  · intro p hp
    refine ⟨by simp [selectUnit, hp], ?_⟩
    cases he : u.externalTest with
    | none =>
      simp only [selectUnit, hp, he, List.nil_append, List.mem_singleton]
      intro hh
      exact hbt p hp hh.symm
    | some q =>
      intro hh
      simp only [selectUnit, hp, he, List.cons_append, List.nil_append,
        List.mem_cons, List.mem_singleton] at hh
      rcases hh with h1 | h1 | h1
      · exact hbe q he h1.symm
      · exact hbt p hp h1.symm
      · cases h1
  · intro ht
    simp [selectUnit, ht]
  · intro p hp
    exact List.mem_flatMap.mpr ⟨u, hu, hp⟩

/-- Witness for C6 at a concrete unit having all three variants. -/
theorem c6_witness :
    (Pkg.mk 3) ∈ selectUnit ⟨⟨1⟩, some ⟨2⟩, some ⟨3⟩⟩ ∧
    (Pkg.mk 2) ∈ selectUnit ⟨⟨1⟩, some ⟨2⟩, some ⟨3⟩⟩ ∧
    (Pkg.mk 1) ∉ selectUnit ⟨⟨1⟩, some ⟨2⟩, some ⟨3⟩⟩ ∧
    (Pkg.mk 2) ∈ loadPackages [⟨⟨1⟩, some ⟨2⟩, some ⟨3⟩⟩] := by
  have h := c6_unit_selection ⟨⟨1⟩, some ⟨2⟩, some ⟨3⟩⟩ [⟨⟨1⟩, some ⟨2⟩, some ⟨3⟩⟩]
    (by simp)
    (by intro p hp; simp only [Option.some.injEq] at hp; rw [← hp]; decide)
    (by intro p hp; simp only [Option.some.injEq] at hp; rw [← hp]; decide)
  exact ⟨h.1 _ rfl, (h.2.1 _ rfl).1, (h.2.1 _ rfl).2, h.2.2.2 _ (h.2.1 _ rfl).1⟩

/-! The matching engine. -/

theorem mem_consumedUpTo {L j a b : Nat} :
    ((a, b) ∈ consumedUpTo L j) ↔ (a = L ∧ b < j) := by
  unfold consumedUpTo
  constructor
  · intro h
    rcases List.mem_map.mp h with ⟨i, hi, heq⟩
    have h1 : L = a := congrArg Prod.fst heq
    have h2 : i = b := congrArg Prod.snd heq
    exact ⟨h1.symm, h2 ▸ List.mem_range.mp hi⟩
  · rintro ⟨rfl, hb⟩
    exact List.mem_map.mpr ⟨b, List.mem_range.mpr hb, rfl⟩

theorem consumedUpTo_succ (L j : Nat) :
    consumedUpTo L (j + 1) = consumedUpTo L j ++ [(L, j)] := by
  unfold consumedUpTo
  rw [List.range_succ, List.map_append]
  rfl

theorem findFrom_none {matched : List ExpId} {line : Nat} {text : String} :
    ∀ (l : List String) (s : Nat), (∀ t ∈ l, t ≠ text) →
      findFrom matched line text s l = none := by
  intro l
  induction l with
  | nil => intro s _; rfl
  | cons w rest ih =>
    intro s hall
    have hw : ¬(w = text ∧ (line, s) ∉ matched) := by
      intro hc
      exact hall w (List.mem_cons_self w rest) hc.1
    simp only [findFrom, if_neg hw]
    exact ih (s + 1) (fun t ht => hall t (List.mem_cons_of_mem _ ht))

theorem findFrom_replicate {L j : Nat} {T : String} :
    ∀ (k s : Nat), s ≤ j →
      findFrom (consumedUpTo L j) L T s (List.replicate k T)
        = if j < s + k then some j else none := by
  intro k
  induction k with
  | zero =>
    intro s hs
    rw [List.replicate_zero]
    have hng : ¬ j < s + 0 := by omega
    rw [if_neg hng]
    rfl
  | succ n ih =>
    intro s hs
    rw [List.replicate_succ]
    simp only [findFrom, eq_self_iff_true, true_and]
    by_cases hsj : s < j
    · have hmem : (L, s) ∈ consumedUpTo L j := mem_consumedUpTo.mpr ⟨rfl, hsj⟩
      have hcond : ¬((L, s) ∉ consumedUpTo L j) := fun hn => hn hmem
      rw [if_neg hcond]
      rw [ih (s + 1) hsj]
      have harith : s + 1 + n = s + (n + 1) := by omega
      rw [harith]
    · have hsj' : s = j := by omega
      subst hsj'
      have hmem : (L, s) ∉ consumedUpTo L s := by
        intro hc
        exact absurd (mem_consumedUpTo.mp hc).2 (by omega)
      rw [if_pos hmem]
      have hlt : s < s + (n + 1) := by omega
      rw [if_pos hlt]

theorem processWarn_eq_some (file : String) (ws : Warnings) (st : CheckState)
    (warn : Warn) {w : ExpId}
    (h : ws.findExp st.matched warn.line warn.text = some w) :
    processWarn file ws st warn
      = if w ∈ st.matched then
          CheckState.mk st.matched
            (st.failures ++ [Failure.multipleMatches file warn.line warn.text])
        else CheckState.mk (st.matched ++ [w]) st.failures := by
  unfold processWarn
  rw [h]

theorem processWarn_eq_none (file : String) (ws : Warnings) (st : CheckState)
    (warn : Warn)
    (h : ws.findExp st.matched warn.line warn.text = none) :
    processWarn file ws st warn
      = CheckState.mk st.matched
          (st.failures ++ [Failure.unexpectedWarn file warn.line warn.text]) := by
  unfold processWarn
  rw [h]

theorem processWarn_replicate {file : String} {ws : Warnings} {L N : Nat}
    {T : String} (hL : ws.lookupLine L = List.replicate N T)
    (j : Nat) (_hj : j ≤ N) (fs : List Failure) :
    processWarn file ws ⟨consumedUpTo L j, fs⟩ ⟨L, T⟩
      = if j < N then CheckState.mk (consumedUpTo L (j + 1)) fs
        else CheckState.mk (consumedUpTo L j)
          (fs ++ [Failure.unexpectedWarn file L T]) := by
  have hf := findFrom_replicate (L := L) (j := j) (T := T) N 0 (Nat.zero_le j)
  rw [Nat.zero_add] at hf
  by_cases hjN : j < N
  · rw [if_pos hjN] at hf ⊢
    have hsome : ws.findExp (consumedUpTo L j) L T = some (L, j) := by
      unfold Warnings.findExp
      rw [hL, hf]
      rfl
    rw [processWarn_eq_some file ws ⟨consumedUpTo L j, fs⟩ ⟨L, T⟩ hsome]
    have hnm : ((L, j) : ExpId) ∉ consumedUpTo L j := by
      intro hc
      exact absurd (mem_consumedUpTo.mp hc).2 (lt_irrefl j)
    rw [if_neg hnm, consumedUpTo_succ]
  · rw [if_neg hjN] at hf ⊢
    have hnone : ws.findExp (consumedUpTo L j) L T = none := by
      unfold Warnings.findExp
      rw [hL, hf]
      rfl
    rw [processWarn_eq_none file ws ⟨consumedUpTo L j, fs⟩ ⟨L, T⟩ hnone]

theorem processWarns_replicate (file : String) {ws : Warnings} {L N : Nat}
    {T : String} (hL : ws.lookupLine L = List.replicate N T) :
    ∀ (k j : Nat) (fs : List Failure), j ≤ N →
      processWarns file ws ⟨consumedUpTo L j, fs⟩ (List.replicate k ⟨L, T⟩)
        = if j + k ≤ N then CheckState.mk (consumedUpTo L (j + k)) fs
          else CheckState.mk (consumedUpTo L N)
            (fs ++ List.replicate (j + k - N) (Failure.unexpectedWarn file L T)) := by
  intro k
  induction k with
  | zero =>
    intro j fs hj
    rw [List.replicate_zero]
    have hle : j + 0 ≤ N := by omega
    rw [if_pos hle]
    rfl
  | succ n ih =>
    intro j fs hj
    rw [List.replicate_succ]
    show processWarns file ws
      (processWarn file ws ⟨consumedUpTo L j, fs⟩ ⟨L, T⟩)
      (List.replicate n ⟨L, T⟩) = _
    rw [processWarn_replicate hL j hj fs]
    by_cases hjN : j < N
    · rw [if_pos hjN]
      rw [ih (j + 1) fs (by omega)]
      have harith : j + 1 + n = j + (n + 1) := by omega
      rw [harith]
    · have hjeq : j = N := by omega
      subst hjeq
      rw [if_neg hjN]
      rw [ih j (fs ++ [Failure.unexpectedWarn file L T]) (le_refl j)]
      by_cases hn : n = 0
      · subst hn
        have hle : j + 0 ≤ j := by omega
        have hng : ¬ j + (0 + 1) ≤ j := by omega
        rw [if_pos hle, if_neg hng]
        have h1 : j + (0 + 1) - j = 1 := by omega
        rw [h1]
        rfl
      · have hng1 : ¬ j + n ≤ j := by omega
        have hng2 : ¬ j + (n + 1) ≤ j := by omega
        rw [if_neg hng1, if_neg hng2]
        have h1 : j + n - j = n := by omega
        have h2 : j + (n + 1) - j = n + 1 := by omega
        rw [h1, h2]
        rw [List.append_assoc, List.singleton_append, ← List.replicate_succ]

theorem unmatchedAt_all_consumed {file : String} {L N : Nat} {T : String} :
    ∀ (k s : Nat), s + k ≤ N →
      unmatchedAt file (consumedUpTo L N) L s (List.replicate k T) = [] := by
  intro k
  induction k with
  | zero =>
    intro s _
    rfl
  | succ n ih =>
    intro s hs
    rw [List.replicate_succ]
    have hmem : (L, s) ∈ consumedUpTo L N := mem_consumedUpTo.mpr ⟨rfl, by omega⟩
    show (if (L, s) ∈ consumedUpTo L N then ([] : List Failure)
      else [Failure.unmatched file L T]) ++ _ = []
    rw [if_pos hmem, List.nil_append]
    exact ih (s + 1) (by omega)

theorem mem_unmatchedAt {file : String} {matched : List ExpId} {line : Nat} :
    ∀ {sl : List String} {s : Nat} {fl : Failure},
      fl ∈ unmatchedAt file matched line s sl →
      ∃ w, fl = Failure.unmatched file line w := by
  intro sl
  induction sl with
  | nil =>
    intro s fl h
    cases h
  | cons w rest ih =>
    intro s fl h
    rw [unmatchedAt] at h
    rcases List.mem_append.mp h with h1 | h1
    · by_cases hc : (line, s) ∈ matched
      · rw [if_pos hc] at h1
        cases h1
      · rw [if_neg hc] at h1
        rcases List.mem_singleton.mp h1 with rfl
        exact ⟨w, rfl⟩
    · exact ih h1

theorem unmatched_mem_unmatchedAt {file : String} {matched : List ExpId}
    {L : Nat} {T : String} :
    ∀ (i k s : Nat), i < k → (L, s + i) ∉ matched →
      Failure.unmatched file L T ∈
        unmatchedAt file matched L s (List.replicate k T) := by
  intro i
  induction i with
  | zero =>
    intro k s hik hnm
    rcases Nat.exists_eq_succ_of_ne_zero (by omega : k ≠ 0) with ⟨n, rfl⟩
    rw [List.replicate_succ, unmatchedAt]
    rw [Nat.add_zero] at hnm
    rw [if_neg hnm]
    exact List.mem_append.mpr (Or.inl (List.mem_singleton.mpr rfl))
  | succ m ih =>
    intro k s hik hnm
    rcases Nat.exists_eq_succ_of_ne_zero (by omega : k ≠ 0) with ⟨n, rfl⟩
    rw [List.replicate_succ, unmatchedAt]
    refine List.mem_append.mpr (Or.inr ?_)
    refine ih n (s + 1) (by omega) ?_
    have : s + 1 + m = s + (m + 1) := by omega
    rw [this]
    exact hnm

theorem lookupLine_cons_self {q : Nat × List String} (rest : Warnings) {L : Nat}
    (h : q.1 = L) : Warnings.lookupLine (q :: rest) L = q.2 := by
  unfold Warnings.lookupLine
  rw [List.find?_cons_of_pos _ (by simpa using h)]
  rfl

theorem lookupLine_cons_ne {q : Nat × List String} (rest : Warnings) {L : Nat}
    (h : q.1 ≠ L) : Warnings.lookupLine (q :: rest) L = rest.lookupLine L := by
  unfold Warnings.lookupLine
  rw [List.find?_cons_of_neg _ (by simpa using h)]

theorem lookup_mem {ws : Warnings} {L : Nat} {sl : List String}
    (h : ws.lookupLine L = sl) (hne : sl ≠ []) : (L, sl) ∈ ws := by
  unfold Warnings.lookupLine at h
  cases hf : ws.find? (fun p => p.1 == L) with
  | none =>
    rw [hf] at h
    exact absurd h.symm hne
  | some q =>
    rw [hf] at h
    simp only [Option.map_some', Option.getD_some] at h
    have hm := List.mem_of_find?_eq_some hf
    have hpl : q.1 = L := by
      have hp := List.find?_some hf
      simpa using hp
    have hpe : q = (L, sl) := Prod.ext hpl h
    rw [← hpe]
    exact hm

theorem countP_unmatchedAt_ne_line {file : String} {matched : List ExpId}
    {line L : Nat} (hne : line ≠ L) :
    ∀ (sl : List String) (s : Nat),
      (unmatchedAt file matched line s sl).countP
        (fun fl => decide (fl.line = L)) = 0 := by
  intro sl
  induction sl with
  | nil => intro s; rfl
  | cons w rest ih =>
    intro s
    rw [unmatchedAt, List.countP_append, ih (s + 1)]
    by_cases hc : (line, s) ∈ matched
    · rw [if_pos hc]
      rfl
    · rw [if_neg hc]
      simp [List.countP_cons, Failure.line, hne]

theorem countP_checkUnmatched_no_key {file : String} {matched : List ExpId}
    {L : Nat} :
    ∀ (ws : Warnings), (∀ q ∈ ws, q.1 ≠ L) →
      (checkUnmatched ws matched file).countP
        (fun fl => decide (fl.line = L)) = 0 := by
  intro ws
  induction ws with
  | nil => intro _; rfl
  | cons q rest ih =>
    intro hall
    simp only [checkUnmatched, List.flatMap_cons, List.countP_append]
    rw [countP_unmatchedAt_ne_line (hall q (List.mem_cons_self q rest)) q.2 0]
    have htail := ih (fun r hr => hall r (List.mem_cons_of_mem _ hr))
    rw [Nat.zero_add]
    exact htail

theorem countP_checkUnmatched_line_zero {file : String} {L N : Nat} {T : String} :
    ∀ (ws : Warnings), (ws.map Prod.fst).Nodup →
      ws.lookupLine L = List.replicate N T →
      (checkUnmatched ws (consumedUpTo L N) file).countP
        (fun fl => decide (fl.line = L)) = 0 := by
  intro ws
  induction ws with
  | nil => intro _ _; rfl
  | cons q rest ih =>
    intro hnd hL
    rw [List.map_cons] at hnd
    obtain ⟨hq, hrest⟩ := List.nodup_cons.mp hnd
    simp only [checkUnmatched, List.flatMap_cons, List.countP_append]
    by_cases hql : q.1 = L
    · have hq2 : q.2 = List.replicate N T := by
        rw [← lookupLine_cons_self rest hql]
        exact hL
      rw [hql, hq2, unmatchedAt_all_consumed N 0 (by omega)]
      have htail : (checkUnmatched rest (consumedUpTo L N) file).countP
          (fun fl => decide (fl.line = L)) = 0 := by
        refine countP_checkUnmatched_no_key rest ?_
        intro r hr he
        apply hq
        rw [hql, ← he]
        exact List.mem_map.mpr ⟨r, hr, rfl⟩
      simp only [List.countP_nil, Nat.zero_add]
      exact htail
    · rw [countP_unmatchedAt_ne_line hql q.2 0]
      have htail := ih hrest (by rw [← lookupLine_cons_ne rest hql]; exact hL)
      rw [Nat.zero_add]
      exact htail

/-- C1: for every fixture file and every line carrying N expectations of
one text T, a run emitting exactly N diagnostics with text T at that line
produces no failure for that line (each diagnostic consumes a distinct
expectation); M > N such diagnostics produce a duplicate-match or
unexpected-diagnostic failure at the line; N-1 produce an
unmatched-expectation failure at the line. -/
theorem c1_line_multiset_matching (file T : String) (ws : Warnings)
    (L N M : Nat)
    (hnd : (ws.map Prod.fst).Nodup)
    (hL : ws.lookupLine L = List.replicate N T) :
    ((matchOutcome ws (List.replicate N ⟨L, T⟩) file).countP
        (fun fl => decide (fl.line = L)) = 0) ∧
    (N < M →
      Failure.unexpectedWarn file L T ∈
          matchOutcome ws (List.replicate M ⟨L, T⟩) file ∨
        Failure.multipleMatches file L T ∈
          matchOutcome ws (List.replicate M ⟨L, T⟩) file) ∧
    (0 < N →
      Failure.unmatched file L T ∈
        matchOutcome ws (List.replicate (N - 1) ⟨L, T⟩) file) := by
  have hstate : ∀ m : Nat,
      processWarns file ws ⟨[], []⟩ (List.replicate m ⟨L, T⟩)
        = if m ≤ N then CheckState.mk (consumedUpTo L m) []
          else CheckState.mk (consumedUpTo L N)
            (List.replicate (m - N) (Failure.unexpectedWarn file L T)) := by
    intro m
    have h0 := processWarns_replicate file hL m 0 [] (Nat.zero_le N)
    rw [Nat.zero_add] at h0
    have hz : consumedUpTo L 0 = [] := rfl
    rw [hz] at h0
    exact h0
  refine ⟨?_, ?_, ?_⟩
  · unfold matchOutcome
    rw [hstate N, if_pos (le_refl N)]
    rw [List.countP_append]
    rw [countP_checkUnmatched_line_zero ws hnd hL]
    rfl
  · intro hM
    left
    unfold matchOutcome
    have hng : ¬ M ≤ N := by omega
    rw [hstate M, if_neg hng]
    refine List.mem_append.mpr (Or.inl ?_)
    exact List.mem_replicate.mpr ⟨by omega, rfl⟩
  · intro hN
    unfold matchOutcome
    have hle : N - 1 ≤ N := by omega
    rw [hstate (N - 1), if_pos hle]
    refine List.mem_append.mpr (Or.inr ?_)
    have hmem : ((L, List.replicate N T) : Nat × List String) ∈ ws := by
      refine lookup_mem hL ?_
      intro hnil
      have := congrArg List.length hnil
      simp at this
      omega
    refine List.mem_flatMap.mpr ⟨(L, List.replicate N T), hmem, ?_⟩
    refine unmatched_mem_unmatchedAt (N - 1) N 0 (by omega) ?_
    intro hc
    have h2 := (mem_consumedUpTo.mp hc).2
    omega

/-- Witness for C1 at a concrete index: line 5 carries two expectations
"a"; two matching diagnostics leave no failure at line 5, three produce an
unexpected or duplicate failure, one leaves an unmatched failure. -/
theorem c1_witness :
    ((matchOutcome [(5, ["a", "a"])] (List.replicate 2 ⟨5, "a"⟩) "f").countP
        (fun fl => decide (fl.line = 5)) = 0) ∧
    (Failure.unexpectedWarn "f" 5 "a" ∈
        matchOutcome [(5, ["a", "a"])] (List.replicate 3 ⟨5, "a"⟩) "f" ∨
      Failure.multipleMatches "f" 5 "a" ∈
        matchOutcome [(5, ["a", "a"])] (List.replicate 3 ⟨5, "a"⟩) "f") ∧
    (Failure.unmatched "f" 5 "a" ∈
      matchOutcome [(5, ["a", "a"])] (List.replicate (2 - 1) ⟨5, "a"⟩) "f") := by
  have h := c1_line_multiset_matching "f" "a" [(5, ["a", "a"])] 5 2 3
    (by decide) (by decide)
  exact ⟨h.1, h.2.1 (by omega), h.2.2 (by omega)⟩

/-- C4: a diagnostic whose line has no expectation with equal text is
reported as exactly one unexpected-diagnostic failure carrying the file,
the line and the diagnostic text, and consumes no expectation (the
consumed set is unchanged). -/
theorem c4_unexpected_diagnostic (file : String) (ws : Warnings)
    (st : CheckState) (warn : Warn)
    (h : ∀ t ∈ ws.lookupLine warn.line, t ≠ warn.text) :
    processWarn file ws st warn
      = CheckState.mk st.matched
          (st.failures ++ [Failure.unexpectedWarn file warn.line warn.text]) := by
  have hnone : ws.findExp st.matched warn.line warn.text = none := by
    unfold Warnings.findExp
    rw [findFrom_none (ws.lookupLine warn.line) 0 h]
    rfl
  exact processWarn_eq_none file ws st warn hnone

/-- Witness for C4: a diagnostic at line 2 with text "y" against an index
holding only "x" at line 1 is reported as one unexpected warning and
consumes nothing. -/
theorem c4_witness :
    processWarn "f" [(1, ["x"])] ⟨[], []⟩ ⟨2, "y"⟩
      = CheckState.mk [] ([] ++ [Failure.unexpectedWarn "f" 2 "y"]) :=
  c4_unexpected_diagnostic "f" [(1, ["x"])] ⟨[], []⟩ ⟨2, "y"⟩ (by decide)

theorem checkUnmatched_cons (q : Nat × List String) (rest : Warnings)
    (matched : List ExpId) (file : String) :
    checkUnmatched (q :: rest) matched file
      = unmatchedAt file matched q.1 0 q.2 ++ checkUnmatched rest matched file :=
  rfl

theorem count_unmatchedAt_ne_line {file T : String} {matched : List ExpId}
    {line L : Nat} (hne : line ≠ L) :
    ∀ (sl : List String) (s : Nat),
      (unmatchedAt file matched line s sl).count
        (Failure.unmatched file L T) = 0 := by
  intro sl
  induction sl with
  | nil => intro s; rfl
  | cons w rest ih =>
    intro s
    rw [unmatchedAt, List.count_append, ih (s + 1)]
    by_cases hc : (line, s) ∈ matched
    · rw [if_pos hc]
      rfl
    · rw [if_neg hc]
      have hne2 : L ≠ line := fun he => hne he.symm
      simp [List.count_cons, hne2]

theorem count_unmatchedAt_self_line {file T : String} {matched : List ExpId}
    {L : Nat} :
    ∀ (sl : List String) (s : Nat),
      (unmatchedAt file matched L s sl).count (Failure.unmatched file L T)
        = (sl.enumFrom s).countP
            (fun iw => decide (iw.2 = T ∧ (L, iw.1) ∉ matched)) := by
  intro sl
  induction sl with
  | nil => intro s; rfl
  | cons w rest ih =>
    intro s
    have he : List.enumFrom s (w :: rest) = (s, w) :: List.enumFrom (s + 1) rest :=
      rfl
    rw [unmatchedAt, List.count_append, ih (s + 1), he, List.countP_cons]
    by_cases hc : (L, s) ∈ matched
    · rw [if_pos hc]
      have hp : decide (w = T ∧ ((L, s) : ExpId) ∉ matched) = false := by
        simp [hc]
      simp [hp]
    · rw [if_neg hc]
      by_cases hw : w = T
      · have hp : decide (w = T ∧ ((L, s) : ExpId) ∉ matched) = true := by
          simp [hw, hc]
        simp [hp, List.count_cons, hw, hc, Nat.add_comm]
      · have hp : decide (w = T ∧ ((L, s) : ExpId) ∉ matched) = false := by
          simp [hw]
        have hw2 : T ≠ w := fun he => hw he.symm
        simp [hp, List.count_cons, hw2]

theorem count_checkUnmatched_no_key {file T : String} {matched : List ExpId}
    {L : Nat} :
    ∀ (ws : Warnings), (∀ q ∈ ws, q.1 ≠ L) →
      (checkUnmatched ws matched file).count (Failure.unmatched file L T) = 0 := by
  intro ws
  induction ws with
  | nil => intro _; rfl
  | cons q rest ih =>
    intro hall
    rw [checkUnmatched_cons, List.count_append]
    rw [count_unmatchedAt_ne_line (hall q (List.mem_cons_self q rest)) q.2 0]
    rw [ih (fun r hr => hall r (List.mem_cons_of_mem _ hr))]

/-- C5: for a fixture file whose index holds the slice `sl` for line L,
the number of unmatched-expectation failures reported for line L with
text T equals the number of positions of `sl` holding text T whose
identity is not in the consumed set: every unconsumed expectation record
is reported exactly once, tracked per identity, so two textually equal
expectations on one line are reported independently. -/
theorem c5_unmatched_reporting (file T : String) (matched : List ExpId)
    (L : Nat) (sl : List String) :
    ∀ (ws : Warnings), (ws.map Prod.fst).Nodup → (L, sl) ∈ ws →
      (checkUnmatched ws matched file).count (Failure.unmatched file L T)
        = (sl.enumFrom 0).countP
            (fun iw => decide (iw.2 = T ∧ ((L, iw.1) : ExpId) ∉ matched)) := by
  intro ws
  induction ws with
  | nil =>
    intro _ hmem
    cases hmem
  | cons q rest ih =>
    intro hnd hmem
    rw [List.map_cons] at hnd
    obtain ⟨hq, hrest⟩ := List.nodup_cons.mp hnd
    rw [checkUnmatched_cons, List.count_append]
    rcases List.mem_cons.mp hmem with heq | hmem'
    · have hq1 : q.1 = L := by rw [← heq]
      have hq2 : q.2 = sl := by rw [← heq]
      rw [hq1, hq2, count_unmatchedAt_self_line sl 0]
      have htail : (checkUnmatched rest matched file).count
          (Failure.unmatched file L T) = 0 := by
        refine count_checkUnmatched_no_key rest ?_
        intro r hr he
        apply hq
        rw [hq1, ← he]
        exact List.mem_map.mpr ⟨r, hr, rfl⟩
      rw [htail, Nat.add_zero]
    · have hql : q.1 ≠ L := by
        intro he
        apply hq
        rw [he]
        exact List.mem_map.mpr ⟨(L, sl), hmem', rfl⟩
      rw [count_unmatchedAt_ne_line hql q.2 0, Nat.zero_add]
      exact ih hrest hmem'

/-- Witness for C5: line 5 holds two expectations "a", the first consumed;
exactly one unmatched failure for (5, "a") remains, while line 6 is
reported separately. -/
theorem c5_witness :
    (checkUnmatched [(5, ["a", "a"]), (6, ["b"])] [(5, 0)] "f").count
        (Failure.unmatched "f" 5 "a")
      = ((["a", "a"] : List String).enumFrom 0).countP
          (fun iw => decide (iw.2 = "a" ∧ ((5, iw.1) : ExpId) ∉ ([(5, 0)] : List ExpId))) :=
  c5_unmatched_reporting "f" "a" [(5, 0)] 5 ["a", "a"]
    [(5, ["a", "a"]), (6, ["b"])] (by decide) (by decide)

/-- C9: in the per-file check the expectations are parsed from the raw
on-disk fixture content and the directive-stripping pass runs strictly
before the checker executes: the tree handed to the checker carries no
directive comment, the outcome matches the checker's output on the
stripped tree against the index parsed from the raw content, and
stripping the tree in advance changes nothing (the checker never observes
the annotation text, while the expectation index is unaffected by the
stripping). -/
theorem c9_strip_before_check (checkerName : String)
    (check : GoFile → List Warn) (fx : Fixture)
    (raw : List (Nat × String)) (h : fx.raw = some raw) :
    (((stripDirectives fx.tree).comments.flatMap CommentGroup.list).countP
        (fun c => hasDirectiveMarker c.text) = 0) ∧
    checkFile checkerName check fx
      = Except.ok (matchOutcome (newWarnings raw)
          (check (stripDirectives fx.tree))
          (testFilename checkerName fx.filename)) ∧
    checkFile checkerName check { fx with tree := stripDirectives fx.tree }
      = checkFile checkerName check fx := by
  obtain ⟨fn, r, tr⟩ := fx
  have h2 : r = some raw := h
  subst h2
  refine ⟨?_, rfl, ?_⟩
  · refine List.countP_eq_zero.mpr ?_
    intro c hc
    rcases List.mem_flatMap.mp hc with ⟨cg, hcg, hcl⟩
    rcases List.mem_map.mp hcg with ⟨cg0, hcg0, rfl⟩
    rcases List.mem_map.mp hcl with ⟨c0, hc0, rfl⟩
    intro habs
    by_cases hm : hasDirectiveMarker c0.text = true
    · rw [stripComment, if_pos hm] at habs
      rw [hasDirectiveMarker_empty_comment] at habs
      cases habs
    · rw [stripComment, if_neg hm] at habs
      exact hm habs
  · show Except.ok (matchOutcome (newWarnings raw)
        (check (stripDirectives (stripDirectives tr)))
        (testFilename checkerName fn))
      = Except.ok (matchOutcome (newWarnings raw)
        (check (stripDirectives tr)) (testFilename checkerName fn))
    rw [stripDirectives_stripDirectives]

/-- Witness for C9 at a concrete fixture holding one directive comment. -/
theorem c9_witness :
    (((stripDirectives (GoFile.mk 1 "p" []
          [CommentGroup.mk [Comment.mk 2 "/// boom"]])).comments.flatMap
        CommentGroup.list).countP (fun c => hasDirectiveMarker c.text) = 0) ∧
    checkFile "c" (fun _ => [])
        (Fixture.mk "f.go" (some [(2, "/// boom")])
          (GoFile.mk 1 "p" [] [CommentGroup.mk [Comment.mk 2 "/// boom"]]))
      = Except.ok (matchOutcome (newWarnings [(2, "/// boom")])
          ([] : List Warn) (testFilename "c" "f.go")) ∧
    checkFile "c" (fun _ => [])
        (Fixture.mk "f.go" (some [(2, "/// boom")])
          (stripDirectives
            (GoFile.mk 1 "p" [] [CommentGroup.mk [Comment.mk 2 "/// boom"]])))
      = checkFile "c" (fun _ => [])
          (Fixture.mk "f.go" (some [(2, "/// boom")])
            (GoFile.mk 1 "p" [] [CommentGroup.mk [Comment.mk 2 "/// boom"]])) :=
  c9_strip_before_check "c" (fun _ => [])
    (Fixture.mk "f.go" (some [(2, "/// boom")])
      (GoFile.mk 1 "p" [] [CommentGroup.mk [Comment.mk 2 "/// boom"]]))
    [(2, "/// boom")] rfl

/-! Accumulation and abort behaviour (C10). -/

theorem processWarns_append {file : String} {ws : Warnings} :
    ∀ (l1 l2 : List Warn) (st : CheckState),
      processWarns file ws st (l1 ++ l2)
        = processWarns file ws (processWarns file ws st l1) l2 := by
  intro l1
  induction l1 with
  | nil => intro l2 st; rfl
  | cons d rest ih =>
    intro l2 st
    rw [List.cons_append]
    show processWarns file ws (processWarn file ws st d) (rest ++ l2) = _
    rw [ih]
    rfl

theorem processWarn_failures_extend (file : String) (ws : Warnings)
    (st : CheckState) (d : Warn) :
    ∃ fs, (processWarn file ws st d).failures = st.failures ++ fs := by
  cases h : ws.findExp st.matched d.line d.text with
  | none =>
    rw [processWarn_eq_none file ws st d h]
    exact ⟨[Failure.unexpectedWarn file d.line d.text], rfl⟩
  | some w =>
    rw [processWarn_eq_some file ws st d h]
    by_cases hw : w ∈ st.matched
    · rw [if_pos hw]
      exact ⟨[Failure.multipleMatches file d.line d.text], rfl⟩
    · rw [if_neg hw]
      exact ⟨[], (List.append_nil _).symm⟩

theorem processWarns_failures_extend {file : String} {ws : Warnings} :
    ∀ (ds : List Warn) (st : CheckState),
      ∃ fs, (processWarns file ws st ds).failures = st.failures ++ fs := by
  intro ds
  induction ds with
  | nil => intro st; exact ⟨[], (List.append_nil _).symm⟩
  | cons d rest ih =>
    intro st
    rcases processWarn_failures_extend file ws st d with ⟨fs1, h1⟩
    rcases ih (processWarn file ws st d) with ⟨fs2, h2⟩
    refine ⟨fs1 ++ fs2, ?_⟩
    show (processWarns file ws (processWarn file ws st d) rest).failures = _
    rw [h2, h1, List.append_assoc]

theorem checkFile_of_some {checkerName : String} {check : GoFile → List Warn}
    {fx : Fixture} {raw : List (Nat × String)} (h : fx.raw = some raw) :
    checkFile checkerName check fx
      = Except.ok (matchOutcome (newWarnings raw)
          (check (stripDirectives fx.tree))
          (testFilename checkerName fx.filename)) := by
  unfold checkFile
  rw [h]

theorem checkFile_of_none {checkerName : String} {check : GoFile → List Warn}
    {fx : Fixture} (h : fx.raw = none) :
    checkFile checkerName check fx
      = Except.error ("read file " ++ testFilename checkerName fx.filename) := by
  unfold checkFile
  rw [h]

theorem okFailures_of_some {checkerName : String} {check : GoFile → List Warn}
    {fx : Fixture} {raw : List (Nat × String)} (h : fx.raw = some raw) :
    okFailures checkerName check fx
      = matchOutcome (newWarnings raw) (check (stripDirectives fx.tree))
          (testFilename checkerName fx.filename) := by
  unfold okFailures
  rw [checkFile_of_some h]

theorem runFixtures_cons (checkerName : String) (check : GoFile → List Warn)
    (fx : Fixture) (rest : List Fixture) :
    runFixtures checkerName check (fx :: rest)
      = match checkFile checkerName check fx with
        | Except.error e => ([], some e)
        | Except.ok fs =>
          ((fs ++ (runFixtures checkerName check rest).1),
            (runFixtures checkerName check rest).2) :=
  rfl

theorem runFixtures_all_ok {checkerName : String} {check : GoFile → List Warn} :
    ∀ (fxs : List Fixture), (∀ fx ∈ fxs, fx.raw ≠ none) →
      runFixtures checkerName check fxs
        = (fxs.flatMap (okFailures checkerName check), none) := by
  intro fxs
  induction fxs with
  | nil => intro _; rfl
  | cons fx rest ih =>
    intro hall
    have hfx := hall fx (List.mem_cons_self fx rest)
    cases hr : fx.raw with
    | none => exact absurd hr hfx
    | some raw =>
      rw [runFixtures_cons, checkFile_of_some hr,
        ih (fun g hg => hall g (List.mem_cons_of_mem _ hg))]
      rw [List.flatMap_cons, okFailures_of_some hr]

theorem runFixtures_abort {checkerName : String} {check : GoFile → List Warn} :
    ∀ (fxs : List Fixture) (fx0 : Fixture) (rest : List Fixture),
      (∀ fx ∈ fxs, fx.raw ≠ none) → fx0.raw = none →
      runFixtures checkerName check (fxs ++ fx0 :: rest)
        = (fxs.flatMap (okFailures checkerName check),
            some ("read file " ++ testFilename checkerName fx0.filename)) := by
  intro fxs
  induction fxs with
  | nil =>
    intro fx0 rest _ hbad
    rw [List.nil_append, runFixtures_cons, checkFile_of_none hbad]
    rfl
  | cons fx fxs ih =>
    intro fx0 rest hall hbad
    have hfx := hall fx (List.mem_cons_self _ _)
    cases hr : fx.raw with
    | none => exact absurd hr hfx
    | some raw =>
      rw [List.cons_append, runFixtures_cons, checkFile_of_some hr,
        ih fx0 rest (fun g hg => hall g (List.mem_cons_of_mem _ hg)) hbad]
      rw [List.flatMap_cons, okFailures_of_some hr]

/-- C10: within one checker's fixture test, recording a failure never
stops processing: the matching loop processes a concatenation of
diagnostics as the composition of its parts and only ever extends the
failure list, and across files the accumulated reports are the
concatenation of the per-file reports; only a load-class failure (a
fixture file that cannot be read) aborts the remaining files, returning
the reports accumulated so far together with the fatal message. -/
theorem c10_accumulation (file checkerName : String) (ws : Warnings)
    (check : GoFile → List Warn) (st : CheckState) (ds1 ds2 : List Warn)
    (fxs rest : List Fixture) (fx0 : Fixture)
    (hok : ∀ fx ∈ fxs, fx.raw ≠ none) (hbad : fx0.raw = none) :
    (processWarns file ws st (ds1 ++ ds2)
        = processWarns file ws (processWarns file ws st ds1) ds2) ∧
    (∃ fs, (processWarns file ws st ds1).failures = st.failures ++ fs) ∧
    (runFixtures checkerName check fxs
        = (fxs.flatMap (okFailures checkerName check), none)) ∧
    (runFixtures checkerName check (fxs ++ fx0 :: rest)
        = (fxs.flatMap (okFailures checkerName check),
            some ("read file " ++ testFilename checkerName fx0.filename))) :=
  ⟨processWarns_append ds1 ds2 st, processWarns_failures_extend ds1 st,
    runFixtures_all_ok fxs hok, runFixtures_abort fxs fx0 rest hok hbad⟩

/-- Witness for C10 at concrete inputs: one readable fixture followed by
an unreadable one. -/
theorem c10_witness :
    (processWarns "f" [] ⟨[], []⟩ ([⟨1, "x"⟩] ++ [⟨2, "y"⟩])
        = processWarns "f" [] (processWarns "f" [] ⟨[], []⟩ [⟨1, "x"⟩]) [⟨2, "y"⟩]) ∧
    (∃ fs, (processWarns "f" [] ⟨[], []⟩ [⟨1, "x"⟩]).failures = [] ++ fs) ∧
    (runFixtures "c" (fun _ => [])
        [Fixture.mk "g.go" (some []) (GoFile.mk 0 "p" [] [])]
      = ([Fixture.mk "g.go" (some []) (GoFile.mk 0 "p" [] [])].flatMap
          (okFailures "c" (fun _ => [])), none)) ∧
    (runFixtures "c" (fun _ => [])
        ([Fixture.mk "g.go" (some []) (GoFile.mk 0 "p" [] [])] ++
          [Fixture.mk "h.go" none (GoFile.mk 0 "p" [] [])])
      = ([Fixture.mk "g.go" (some []) (GoFile.mk 0 "p" [] [])].flatMap
          (okFailures "c" (fun _ => [])),
          some ("read file " ++ testFilename "c" "h.go"))) :=
  c10_accumulation "f" "c" [] (fun _ => []) ⟨[], []⟩ [⟨1, "x"⟩] [⟨2, "y"⟩]
    [Fixture.mk "g.go" (some []) (GoFile.mk 0 "p" [] [])] []
    (Fixture.mk "h.go" none (GoFile.mk 0 "p" [] []))
    (by decide) rfl

end Linttest
